import Mathlib

/-!
Shallow embedding of the persistence layer of the expense-tracker app
(`www/js/db.js`, class `ExpenseDB`) and of its service worker's fetch
handler, together with theorems settling the specification's claims.

Modelling conventions:
* Each IndexedDB object store (`parents`, `entries`, `categories`) is a
  `List` of records keyed by their `id` field (the store's `keyPath`).
  `store.add` fails when the key (or a unique index value) is already
  present; `store.put` replaces the record with the same key; `store.get`
  is `List.find?`; `store.delete` removes every record with the key and
  always succeeds.
* Monetary amounts are modelled as `Int` (the claims are about exact
  sums, not floating-point rounding).
* Nondeterministic inputs of the code (`generateUUID`, `Date.now()`) are
  passed in as explicit parameters.
* Each asynchronous operation is a function `DB → Except Err α × DB`
  returning the settled outcome of its promise together with the
  post-state; a rejected promise is `Except.error` and the post-state
  records exactly the writes the code performed before rejecting.
* The four entry-mutating operations (`createEntry`, `updateEntry`,
  `deleteEntry`, `duplicateEntry`) instead return `Outcome α × DB`: they
  `await updateParentTotal(...)` inside an `onsuccess` callback, so when
  the recompute rejects, that rejection is unhandled inside the callback
  and the operation's promise never resolves nor rejects — `Outcome`'s
  `unsettled` constructor records exactly this hung promise.
-/

namespace ExpenseDB

/-- A `parents`-store record (a month/year Group), as built by `createParent`. -/
structure Parent where
  id : String
  name : String
  createdAt : Nat
  totalExpenses : Int
deriving DecidableEq, Repr

/-- An `entries`-store record (an expense), as built by `createEntry`. -/
structure Entry where
  id : String
  parentId : String
  description : String
  amount : Int
  category : String
  date : Nat
  createdAt : Nat
deriving DecidableEq, Repr

/-- A `categories`-store record, as built by `createCategory`. -/
structure Category where
  id : String
  name : String
  isDefault : Bool
  createdAt : Nat
deriving DecidableEq, Repr

/-- The three object stores of `ExpenseTrackerDB`. -/
structure DB where
  parents : List Parent
  entries : List Entry
  categories : List Category
deriving DecidableEq, Repr

def emptyDB : DB := ⟨[], [], []⟩

/-- Rejection kinds of the store's operations (spec section 7 taxonomy).
`notFound` models `Error('Parent not found')` / `Error('Entry not found')`,
`duplicateKey` a `ConstraintError` from `store.add`, `protectedErr` the
`Error('Cannot delete default category')`, `invalidFormat` the failure of
`importData` on a payload without the required arrays. -/
inductive Err where
  | notFound
  | duplicateKey
  | protectedErr
  | invalidFormat
deriving DecidableEq, Repr

/-- The outcome of one of the entry-mutating operations' promises.
`ok`/`error` are a genuine resolve/reject.  `unsettled` models the pattern
`request.onsuccess = async () => { await this.updateParentTotal(...);
resolve(...) }`: when the awaited recompute rejects, that rejection is
unhandled inside the async callback, `resolve`/`reject` are never called,
and the operation's promise never settles. -/
inductive Outcome (α : Type) where
  | ok (a : α)
  | error (e : Err)
  | unsettled
deriving DecidableEq, Repr

/-- Functorial action on a resolved value. -/
def Outcome.map {α β : Type} (f : α → β) : Outcome α → Outcome β
  | .ok a => .ok (f a)
  | .error _e => .error _e
  | .unsettled => .unsettled

/-- The tail of an `onsuccess` handler that `await`s `updateParentTotal`:
resolve with `a` when the recompute succeeded; otherwise the rejection is
swallowed inside the callback and the promise never settles. -/
def settleAfterRecompute {α : Type} (r : Except Err Parent) (a : α) : Outcome α :=
  match r with
  | .ok _ => .ok a
  | .error _ => .unsettled

/-- JS `entries.sort((a, b) => b.date - a.date)`: order by `date` descending. -/
def sortByDateDesc (es : List Entry) : List Entry :=
  List.insertionSort (fun a b => b.date ≤ a.date) es

/-- JS `parents.sort((a, b) => b.createdAt - a.createdAt)`. -/
def sortByCreatedDesc (ps : List Parent) : List Parent :=
  List.insertionSort (fun a b => b.createdAt ≤ a.createdAt) ps

/-- JS `categories.sort((a, b) => a.name.localeCompare(b.name))`. -/
def sortByName (cs : List Category) : List Category :=
  List.insertionSort (fun a b => a.name ≤ b.name) cs

/-- `entries.reduce((sum, entry) => sum + entry.amount, 0)`. -/
def sumAmounts (es : List Entry) : Int :=
  es.foldl (fun s e => s + e.amount) 0

/-- IndexedDB `put` with `keyPath = 'id'`: replace the record with this key,
or append when absent. -/
def putParent (p : Parent) (ps : List Parent) : List Parent :=
  if ps.any (fun q => q.id = p.id) then
    ps.map (fun q => if q.id = p.id then p else q)
  else ps ++ [p]

/-- IndexedDB `put` on the `entries` store. -/
def putEntry (e : Entry) (es : List Entry) : List Entry :=
  if es.any (fun x => x.id = e.id) then
    es.map (fun x => if x.id = e.id then e else x)
  else es ++ [e]

-- ==================== PARENT OPERATIONS ====================

/-- `createParent(name, monthYear)` with the generated/supplied id and
`Date.now()` passed in explicitly. -/
def createParent (name pid : String) (now : Nat) (db : DB) :
    Except Err Parent × DB :=
  let parent : Parent := ⟨pid, name, now, 0⟩
  if db.parents.any (fun q => q.id = pid) then (.error .duplicateKey, db)
  else (.ok parent, { db with parents := db.parents ++ [parent] })

/-- `getAllParents()`. -/
def getAllParents (db : DB) : List Parent :=
  sortByCreatedDesc db.parents

/-- `getParent(id)`; `none` is the not-found sentinel (`undefined`). -/
def getParent (id : String) (db : DB) : Option Parent :=
  db.parents.find? (fun p => p.id = id)

/-- `getEntriesByParent(parentId)`: index lookup then sort by date descending. -/
def getEntriesByParent (pid : String) (db : DB) : List Entry :=
  sortByDateDesc (db.entries.filter (fun e => e.parentId = pid))

/-- `updateParentTotal(parentId)`: re-sum the group's entries, then
get-and-put the parent, rejecting with `Parent not found` if absent. -/
def updateParentTotal (pid : String) (db : DB) : Except Err Parent × DB :=
  let total := sumAmounts (getEntriesByParent pid db)
  match db.parents.find? (fun p => p.id = pid) with
  | some p =>
      let p' := { p with totalExpenses := total }
      (.ok p', { db with parents := putParent p' db.parents })
  | none => (.error .notFound, db)

-- ==================== ENTRY OPERATIONS ====================

/-- `getEntry(id)`. -/
def getEntry (id : String) (db : DB) : Option Entry :=
  db.entries.find? (fun e => e.id = id)

/-- `deleteEntry(id, updateTotal)`: get; if absent resolve (already deleted);
else delete by key, then recompute the former parent's total when asked. -/
def deleteEntry (id : String) (updateTotal : Bool) (db : DB) :
    Outcome Unit × DB :=
  match db.entries.find? (fun e => e.id = id) with
  | none => (.ok (), db)
  | some e =>
      let db1 := { db with entries := db.entries.filter (fun x => ¬ x.id = id) }
      if updateTotal then
        let r := updateParentTotal e.parentId db1
        (settleAfterRecompute r.1 (), r.2)
      else (.ok (), db1)

/-- `createEntry(parentId, description, amount, category, date)` with the
generated UUID and `Date.now()` passed in explicitly.  The entry is added
first; only on add-success is `updateParentTotal(parentId)` awaited. -/
def createEntry (eid pid description : String) (amount : Int)
    (category : String) (date now : Nat) (db : DB) : Outcome Entry × DB :=
  let entry : Entry := ⟨eid, pid, description, amount, category, date, now⟩
  if db.entries.any (fun x => x.id = eid) then (.error .duplicateKey, db)
  else
    let db1 := { db with entries := db.entries ++ [entry] }
    let r := updateParentTotal pid db1
    (settleAfterRecompute r.1 entry, r.2)

/-- The fields an `updateEntry(id, updates)` call may carry; `none` means the
key is absent from the `updates` object. -/
structure EntryUpdates where
  parentId : Option String := none
  description : Option String := none
  amount : Option Int := none
  category : Option String := none
  date : Option Nat := none
deriving DecidableEq, Repr

/-- `Object.assign(entry, updates)` restricted to the fields the app ever
sends (with `amount` re-parsed as a number, modelled as already `Int`). -/
def applyUpdates (u : EntryUpdates) (e : Entry) : Entry :=
  { e with
    parentId := u.parentId.getD e.parentId
    description := u.description.getD e.description
    amount := u.amount.getD e.amount
    category := u.category.getD e.category
    date := u.date.getD e.date }

/-- `updateEntry(id, updates)`: get; reject `Entry not found` when absent;
else merge, put, then recompute the total of the entry's (possibly new)
`parentId`. -/
def updateEntry (id : String) (u : EntryUpdates) (db : DB) :
    Outcome Entry × DB :=
  match db.entries.find? (fun e => e.id = id) with
  | none => (.error .notFound, db)
  | some e =>
      let e' := applyUpdates u e
      let db1 := { db with entries := putEntry e' db.entries }
      let r := updateParentTotal e'.parentId db1
      (settleAfterRecompute r.1 e', r.2)

/-- `duplicateEntry(id)`: read the original, reject `Entry not found` when
absent, else add a copy with fresh `id` and `createdAt` and recompute the
parent's total. -/
def duplicateEntry (id freshId : String) (now : Nat) (db : DB) :
    Outcome Entry × DB :=
  match getEntry id db with
  | none => (.error .notFound, db)
  | some original =>
      let dup := { original with id := freshId, createdAt := now }
      if db.entries.any (fun x => x.id = freshId) then (.error .duplicateKey, db)
      else
        let db1 := { db with entries := db.entries ++ [dup] }
        let r := updateParentTotal dup.parentId db1
        (settleAfterRecompute r.1 dup, r.2)

/-- `deleteParent(id)`: delete each entry of the group (without total
updates), then delete the parent record by key. -/
def deleteParent (id : String) (db : DB) : Except Err Unit × DB :=
  let cascade := getEntriesByParent id db
  let db1 := cascade.foldl (fun acc e => (deleteEntry e.id false acc).2) db
  (.ok (), { db1 with parents := db1.parents.filter (fun p => ¬ p.id = id) })

-- ==================== CATEGORY OPERATIONS ====================

/-- Collapse every run of whitespace to a single `'-'`; the boolean records
whether the previous character was whitespace (JS `replace(/\s+/g, '-')`). -/
def collapseWs : Bool → List Char → List Char
  | _, [] => []
  | prevWs, c :: rest =>
      if c.isWhitespace then
        (if prevWs then [] else ['-']) ++ collapseWs true rest
      else c :: collapseWs false rest

/-- ASCII case-fold of one character (`String.prototype.toLowerCase` on the
category names the app uses). -/
def lowerChar (c : Char) : Char :=
  if 65 ≤ c.toNat ∧ c.toNat ≤ 90 then Char.ofNat (c.toNat + 32) else c

/-- `name.toLowerCase().replace(/\s+/g, '-')`: the derived category id. -/
def categoryId (name : String) : String :=
  ⟨collapseWs false (name.data.map lowerChar)⟩

/-- `getCategories()`. -/
def getCategories (db : DB) : List Category :=
  sortByName db.categories

/-- `createCategory(name, isDefault)`: `store.add` fails on a duplicate
derived id (the keyPath) or a duplicate `name` (unique index). -/
def createCategory (name : String) (isDefault : Bool) (now : Nat) (db : DB) :
    Except Err Category × DB :=
  let cat : Category := ⟨categoryId name, name, isDefault, now⟩
  if db.categories.any (fun c => c.id = cat.id) ∨
     db.categories.any (fun c => c.name = name) then
    (.error .duplicateKey, db)
  else (.ok cat, { db with categories := db.categories ++ [cat] })

/-- `deleteCategory(id)`: delete only when the record exists and is not a
default; otherwise reject `Cannot delete default category`. -/
def deleteCategory (id : String) (db : DB) : Except Err Unit × DB :=
  match db.categories.find? (fun c => c.id = id) with
  | some c =>
      if c.isDefault then (.error .protectedErr, db)
      else (.ok (), { db with categories := db.categories.filter (fun d => ¬ d.id = id) })
  | none => (.error .protectedErr, db)

-- ==================== EXPORT / IMPORT ====================

/-- The JSON payload of `exportData` / the argument of `importData`; `none`
models an absent key of the JS object. -/
structure Snapshot where
  parents : Option (List Parent) := none
  entries : Option (List Entry) := none
  categories : Option (List Category) := none
  exportDate : Option String := none
  version : Option Nat := none
deriving DecidableEq, Repr

/-- `exportData()`: all parents (newest first), each parent's entries
concatenated in that order, all categories. -/
def exportData (exportDate : String) (db : DB) : Snapshot :=
  let parents := getAllParents db
  { parents := some parents
    entries := some (parents.flatMap (fun p => getEntriesByParent p.id db))
    categories := some (getCategories db)
    exportDate := some exportDate
    version := some 2 }

/-- `clearAllData()`: clear the `parents` and `entries` stores. -/
def clearAllData (db : DB) : DB :=
  { db with parents := [], entries := [] }

/-- Category import step: `store.add` with `onerror = resolve` — a record
whose id or name already exists is silently skipped. -/
def importCategory (cs : List Category) (c : Category) : List Category :=
  if cs.any (fun d => d.id = c.id) ∨ cs.any (fun d => d.name = c.name) then cs
  else cs ++ [c]

/-- Add each parent with `store.add`, rejecting on the first duplicate key;
records added before the failure stay in the store. -/
def addParents : List Parent → List Parent → Except Err Unit × List Parent
  | ps, [] => (.ok (), ps)
  | ps, p :: rest =>
      if ps.any (fun q => q.id = p.id) then (.error .duplicateKey, ps)
      else addParents (ps ++ [p]) rest

/-- Add each entry with `store.add`, rejecting on the first duplicate key;
records added before the failure stay in the store. -/
def addEntries : List Entry → List Entry → Except Err Unit × List Entry
  | es, [] => (.ok (), es)
  | es, e :: rest =>
      if es.any (fun x => x.id = e.id) then (.error .duplicateKey, es)
      else addEntries (es ++ [e]) rest

/-- `importData(data)`: clear parents and entries first, merge categories
additively, then iterate `data.parents` and `data.entries`.  Iterating a
missing array throws (`data.parents is not iterable`), modelled as
`invalidFormat`; note the throw happens *after* `clearAllData`. -/
def importData (data : Snapshot) (db : DB) : Except Err Unit × DB :=
  let db1 := clearAllData db
  let cats := match data.categories with
    | some cs => cs.foldl importCategory db1.categories
    | none => db1.categories
  let db2 := { db1 with categories := cats }
  match data.parents with
  | none => (.error .invalidFormat, db2)
  | some ps =>
      match addParents db2.parents ps with
      | (.error err, ps') => (.error err, { db2 with parents := ps' })
      | (.ok _, ps') =>
          let db3 := { db2 with parents := ps' }
          match data.entries with
          | none => (.error .invalidFormat, db3)
          | some es =>
              match addEntries db3.entries es with
              | (.error err, es') => (.error err, { db3 with entries := es' })
              | (.ok _, es') => (.ok (), { db3 with entries := es' })

-- ==================== OPERATION SEQUENCES ====================

/-- One entry-mutating call of the store's public API, with the code's
nondeterministic inputs (`generateUUID`, `Date.now()`) made explicit. -/
inductive EntryOp where
  | create (eid pid description : String) (amount : Int) (category : String)
      (date now : Nat)
  | update (eid : String) (u : EntryUpdates)
  | delete (eid : String)
deriving DecidableEq, Repr

/-- Run one operation, keeping its settled outcome and the post-state. -/
def runEntryOp (op : EntryOp) (db : DB) : Outcome Unit × DB :=
  match op with
  | .create eid pid description amount category date now =>
      let r := createEntry eid pid description amount category date now db
      (r.1.map (fun _ => ()), r.2)
  | .update eid u =>
      let r := updateEntry eid u db
      (r.1.map (fun _ => ()), r.2)
  | .delete eid => deleteEntry eid true db

/-- Run a sequence of operations left to right. -/
def runEntryOps (ops : List EntryOp) (db : DB) : DB :=
  ops.foldl (fun acc op => (runEntryOp op acc).2) db

/-- Store well-formedness: the `keyPath = 'id'` key is unique in each of the
`parents` and `entries` stores (IndexedDB guarantees this). -/
def WF (db : DB) : Prop :=
  (db.parents.map Parent.id).Nodup ∧ (db.entries.map Entry.id).Nodup

/-- The denormalized-total invariant of the spec: every Group's
`totalExpenses` equals the sum of `amount` over the Entries holding its id
as `parentId`. -/
def goodTotals (db : DB) : Prop :=
  ∀ p ∈ db.parents,
    p.totalExpenses = sumAmounts (db.entries.filter (fun e => e.parentId = p.id))

/-- `true` iff the operation is not an `updateEntry` that supplies a new
`parentId` (i.e. it never moves an Entry between Groups). -/
def keepsParent : EntryOp → Bool
  | .update _ u => u.parentId.isNone
  | _ => true

instance decidableWF (db : DB) : Decidable (WF db) :=
  inferInstanceAs
    (Decidable ((db.parents.map Parent.id).Nodup ∧ (db.entries.map Entry.id).Nodup))

instance decidableGoodTotals (db : DB) : Decidable (goodTotals db) :=
  inferInstanceAs
    (Decidable (∀ p ∈ db.parents,
      p.totalExpenses = sumAmounts (db.entries.filter (fun e => e.parentId = p.id))))

end ExpenseDB

namespace ServiceWorker

/-- An HTTP response as the service worker's fetch handler observes it. -/
structure Response where
  status : Nat
  body : String
deriving DecidableEq, Repr

/-- The `fetch` event handler of the service worker, as a function of the
cache-lookup result (`caches.match`) and the settled outcome of the network
`fetch`.  Returns the value the handler's promise passes to
`event.respondWith` (`Except.error` would be a rejected promise; `none` is
JS `undefined`), paired with the response written to the cache, if any.
The final `.catch` only logs, so the handler's promise never rejects. -/
def handleFetch (cached : Option Response) (network : Except Unit Response) :
    Except Unit (Option Response) × Option Response :=
  match cached with
  | some r => (.ok (some r), none)
  | none =>
      match network with
      | .ok resp =>
          if resp.status = 200 then (.ok (some resp), some resp)
          else (.ok (some resp), none)
      | .error _ => (.ok none, none)

end ServiceWorker

namespace ExpenseDB

-- Concrete sample stores used by the witness theorems.

/-- A store holding one default and one custom category. -/
def sampleCatDB : DB :=
  { emptyDB with categories :=
      [⟨"food", "Food", true, 0⟩, ⟨"custom", "Custom", false, 1⟩] }

/-- A store holding one Group with one Entry and a correct total. -/
def sampleDB : DB :=
  { parents := [⟨"2024-01", "January", 0, 5⟩]
    entries := [⟨"e1", "2024-01", "Coffee", 5, "Food", 2, 2⟩]
    categories := [] }

/-- A sequence of entry operations, none of which supplies a new `parentId`. -/
def sampleOps : List EntryOp :=
  [EntryOp.create "e2" "2024-01" "Tea" 3 "" 4 4,
   EntryOp.update "e2" { amount := some 7 },
   EntryOp.delete "e1"]

end ExpenseDB

namespace ExpenseDB

/-! ### Basic lemmas about the store's sorting and summation helpers -/

lemma mem_sortByDateDesc {e : Entry} {es : List Entry} :
    e ∈ sortByDateDesc es ↔ e ∈ es :=
  (List.perm_insertionSort _ es).mem_iff

lemma mem_sortByName {c : Category} {cs : List Category} :
    c ∈ sortByName cs ↔ c ∈ cs :=
  (List.perm_insertionSort _ cs).mem_iff

lemma mem_sortByCreatedDesc {p : Parent} {ps : List Parent} :
    p ∈ sortByCreatedDesc ps ↔ p ∈ ps :=
  (List.perm_insertionSort _ ps).mem_iff

lemma sumAmounts_aux (es : List Entry) :
    ∀ s : Int, es.foldl (fun t e => t + e.amount) s = s + (es.map Entry.amount).sum := by
  induction es with
  | nil => intro s; simp
  | cons e rest ih => intro s; simp [List.foldl_cons, ih, add_assoc]

lemma sumAmounts_eq (es : List Entry) :
    sumAmounts es = (es.map Entry.amount).sum := by
  simpa [sumAmounts] using sumAmounts_aux es 0

lemma sumAmounts_perm {es es' : List Entry} (h : List.Perm es es') :
    sumAmounts es = sumAmounts es' := by
  rw [sumAmounts_eq, sumAmounts_eq]
  exact (h.map _).sum_eq

lemma sumAmounts_sortByDateDesc (es : List Entry) :
    sumAmounts (sortByDateDesc es) = sumAmounts es :=
  sumAmounts_perm (List.perm_insertionSort _ es)

lemma sumAmounts_append (es₁ es₂ : List Entry) :
    sumAmounts (es₁ ++ es₂) = sumAmounts es₁ + sumAmounts es₂ := by
  simp [sumAmounts_eq]

lemma sum_getEntriesByParent (pid : String) (db : DB) :
    sumAmounts (getEntriesByParent pid db) =
      sumAmounts (db.entries.filter (fun e => e.parentId = pid)) := by
  simp [getEntriesByParent, sumAmounts_sortByDateDesc]

/-! ### C5 — the fetch handler on a cache miss with a failed network fetch -/

/-- **C5** (counterexample): with no cached response and a rejected network
fetch, the handler's promise does *not* reject — the `.catch` swallows the
failure and resolves with `undefined`, so the claim that the failure
propagates (un-swallowed) to the page's request caller is false at this
input. -/
theorem handleFetch_cex :
    (ServiceWorker.handleFetch none (Except.error ())).1 = Except.ok none ∧
      ∀ e : Unit, ¬ (ServiceWorker.handleFetch none (Except.error ())).1 = Except.error e :=
  ⟨rfl, fun _ h => Except.noConfusion h⟩

/-- **C5** (amended): on a cache miss with a failed network fetch, the
handler swallows the rejection and resolves with no response (`undefined`,
which the browser then surfaces to the page as a generic network error); no
substitute offline response is served and nothing is written to the cache. -/
theorem handleFetch_miss_failure (network : Except Unit ServiceWorker.Response)
    (e : Unit) (h : network = Except.error e) :
    ServiceWorker.handleFetch none network = (Except.ok none, none) := by
  subst h; rfl

theorem handleFetch_miss_failure_witness :
    ServiceWorker.handleFetch none (Except.error ()) = (Except.ok none, none) :=
  handleFetch_miss_failure (Except.error ()) () rfl

/-! ### C7 — duplicate category names after normalization -/

/-- **C7**: when two `createCategory` calls carry names that normalize to the
same derived id (and the first id/name is not already taken), the first call
succeeds and the second fails with `DuplicateKey`, leaving only the first
category stored. -/
theorem createCategory_second_duplicate (db : DB) (n1 n2 : String) (t1 t2 : Nat)
    (hnorm : categoryId n2 = categoryId n1)
    (hid : ∀ c ∈ db.categories, ¬ c.id = categoryId n1)
    (hname : ∀ c ∈ db.categories, ¬ c.name = n1) :
    ∃ cat1,
      createCategory n1 false t1 db =
        (Except.ok cat1, { db with categories := db.categories ++ [cat1] }) ∧
      cat1.id = categoryId n1 ∧ cat1.name = n1 ∧
      (createCategory n2 false t2 { db with categories := db.categories ++ [cat1] }).1
          = Except.error Err.duplicateKey ∧
      (createCategory n2 false t2 { db with categories := db.categories ++ [cat1] }).2
          = { db with categories := db.categories ++ [cat1] } := by
  refine ⟨⟨categoryId n1, n1, false, t1⟩, ?_, rfl, rfl, ?_, ?_⟩
  · rw [createCategory, if_neg]
    rintro (h | h) <;> rw [List.any_eq_true] at h
    · obtain ⟨c, hc, hc2⟩ := h
      exact hid c hc (of_decide_eq_true hc2)
    · obtain ⟨c, hc, hc2⟩ := h
      exact hname c hc (of_decide_eq_true hc2)
  all_goals
    rw [createCategory, if_pos]
    left
    rw [List.any_eq_true]
    exact ⟨⟨categoryId n1, n1, false, t1⟩, by simp, by simp [hnorm]⟩

theorem createCategory_second_duplicate_witness :
    (categoryId "FOOD" = categoryId "Food") ∧
    ∃ cat1,
      createCategory "Food" false 0 emptyDB =
        (Except.ok cat1, { emptyDB with categories := emptyDB.categories ++ [cat1] }) ∧
      cat1.id = categoryId "Food" ∧ cat1.name = "Food" ∧
      (createCategory "FOOD" false 1
          { emptyDB with categories := emptyDB.categories ++ [cat1] }).1
          = Except.error Err.duplicateKey ∧
      (createCategory "FOOD" false 1
          { emptyDB with categories := emptyDB.categories ++ [cat1] }).2
          = { emptyDB with categories := emptyDB.categories ++ [cat1] } :=
  ⟨by decide,
    createCategory_second_duplicate emptyDB "Food" "FOOD" 0 1 (by decide)
      (by decide) (by decide)⟩

/-! ### C8 — deleting default vs. custom categories -/

/-- **C8**: for a stored category, `deleteCategory` fails with `Protected`
exactly when the category has `isDefault = true`; otherwise it deletes the
record, which is then absent from a subsequent `listCategories()`. -/
theorem deleteCategory_spec (db : DB) (id : String) (c : Category)
    (hfind : db.categories.find? (fun d => d.id = id) = some c) :
    ((deleteCategory id db).1 = Except.error Err.protectedErr ↔ c.isDefault = true) ∧
    (c.isDefault = false →
      (deleteCategory id db).1 = Except.ok () ∧
      ∀ d ∈ getCategories (deleteCategory id db).2, ¬ d.id = id) := by
  cases hd : c.isDefault with
  | true =>
      constructor
      · simp [deleteCategory, hfind, hd]
      · intro hf
        simp [hd] at hf
  | false =>
      constructor
      · simp [deleteCategory, hfind, hd]
      · intro _
        refine ⟨by simp [deleteCategory, hfind, hd], ?_⟩
        intro d hdmem
        simp only [deleteCategory, hfind, hd, Bool.false_eq_true, if_false,
          getCategories] at hdmem
        rw [mem_sortByName] at hdmem
        have := (List.mem_filter.mp hdmem).2
        exact of_decide_eq_true this

theorem deleteCategory_spec_witness :
    (sampleCatDB.categories.find? (fun d => d.id = "custom")
        = some ⟨"custom", "Custom", false, 1⟩) ∧
    (((deleteCategory "custom" sampleCatDB).1 = Except.error Err.protectedErr ↔
        (⟨"custom", "Custom", false, 1⟩ : Category).isDefault = true) ∧
      ((⟨"custom", "Custom", false, 1⟩ : Category).isDefault = false →
        (deleteCategory "custom" sampleCatDB).1 = Except.ok () ∧
        ∀ d ∈ getCategories (deleteCategory "custom" sampleCatDB).2, ¬ d.id = "custom")) :=
  ⟨by decide, deleteCategory_spec sampleCatDB "custom" ⟨"custom", "Custom", false, 1⟩ (by decide)⟩

/-! ### C4 — deleting a Group cascades to its Entries -/

lemma mem_getEntriesByParent {e : Entry} (pid : String) (db : DB) :
    e ∈ getEntriesByParent pid db ↔ e ∈ db.entries ∧ e.parentId = pid := by
  rw [getEntriesByParent, mem_sortByDateDesc, List.mem_filter]
  simp

lemma deleteEntry_false_state (eid : String) (db : DB) :
    (deleteEntry eid false db).2 =
      { db with entries := db.entries.filter (fun x => ¬ x.id = eid) } := by
  cases hfind : db.entries.find? (fun e => e.id = eid) with
  | none =>
      have h := List.find?_eq_none.mp hfind
      have heq : db.entries.filter (fun x => ¬ x.id = eid) = db.entries := by
        rw [List.filter_eq_self]
        intro a ha
        simpa using h a ha
      simp only [deleteEntry, hfind]
      rw [heq]
  | some e => simp [deleteEntry, hfind]

lemma cascade_state (l : List Entry) (db : DB) :
    l.foldl (fun acc e => (deleteEntry e.id false acc).2) db =
      { db with entries := db.entries.filter (fun x => l.all (fun e => ¬ x.id = e.id)) } := by
  induction l generalizing db with
  | nil => simp
  | cons e rest ih =>
      rw [List.foldl_cons, deleteEntry_false_state, ih]
      congr 1
      rw [List.filter_filter]
      simp [List.all_cons, Bool.and_comm]

/-- **C4**: after `deleteParent(g)`, `getEntriesByParent(g)` is empty and
`getParent(g)` is the not-found sentinel; the call resolves successfully for
every id, including nonexistent ones (the cascade is then a no-op). -/
theorem deleteParent_spec (g : String) (db : DB) :
    (deleteParent g db).1 = Except.ok () ∧
    getEntriesByParent g (deleteParent g db).2 = [] ∧
    getParent g (deleteParent g db).2 = none := by
  refine ⟨rfl, ?_, ?_⟩
  · have hstate : (deleteParent g db).2.entries =
        db.entries.filter (fun x =>
          (getEntriesByParent g db).all (fun e => ¬ x.id = e.id)) := by
      simp only [deleteParent, cascade_state]
    rw [getEntriesByParent, hstate]
    have hnil : (db.entries.filter (fun x =>
        (getEntriesByParent g db).all (fun e => ¬ x.id = e.id))).filter
          (fun e => e.parentId = g) = [] := by
      rw [List.filter_eq_nil_iff]
      intro x hx hpx
      obtain ⟨hxe, hall⟩ := List.mem_filter.mp hx
      have hxc : x ∈ getEntriesByParent g db :=
        (mem_getEntriesByParent g db).mpr ⟨hxe, of_decide_eq_true hpx⟩
      have := (List.all_eq_true.mp hall) x hxc
      simp at this
    rw [hnil]
    rfl
  · have hstate : (deleteParent g db).2.parents =
        db.parents.filter (fun p => ¬ p.id = g) := by
      simp only [deleteParent, cascade_state]
    rw [getParent, hstate]
    rw [List.find?_eq_none]
    intro p hp
    have := (List.mem_filter.mp hp).2
    simpa using this

/-! ### C10 — exported entries are exactly those owned by an existing Group -/

/-- **C10**: the exported `entries` list contains exactly the stored Entries
whose `parentId` is the id of some stored Group; every orphaned Entry is
silently omitted from the snapshot. -/
theorem exportData_entries_iff (d : String) (db : DB) (e : Entry) :
    e ∈ ((exportData d db).entries.getD []) ↔
      e ∈ db.entries ∧ ∃ p ∈ db.parents, p.id = e.parentId := by
  have hx : ((exportData d db).entries.getD []) =
      (getAllParents db).flatMap (fun p => getEntriesByParent p.id db) := rfl
  rw [hx, List.mem_flatMap]
  constructor
  · rintro ⟨p, hp, he⟩
    obtain ⟨hee, hpe⟩ := (mem_getEntriesByParent _ _).mp he
    rw [getAllParents, mem_sortByCreatedDesc] at hp
    exact ⟨hee, p, hp, hpe.symm⟩
  · rintro ⟨hee, p, hp, hpe⟩
    refine ⟨p, ?_, (mem_getEntriesByParent _ _).mpr ⟨hee, hpe.symm⟩⟩
    rwa [getAllParents, mem_sortByCreatedDesc]

/-! ### C9 — `createEntry` against a missing Group is not atomic -/

/-- **C9** (counterexample): `createEntry` against a nonexistent Group does
*not* reject with `NotFound`: the recompute's rejection is unhandled inside
the `onsuccess` callback (db.js wires `resolve` after the `await`, and
`reject` is never reached), so the operation's promise never settles — shown
here at a concrete input, where the new Entry is nevertheless persisted. -/
theorem createEntry_nonatomic_cex :
    (createEntry "e1" "g1" "Coffee" 5 "" 1 1 emptyDB).1 = Outcome.unsettled ∧
    ¬ (createEntry "e1" "g1" "Coffee" 5 "" 1 1 emptyDB).1 = Outcome.error Err.notFound ∧
    (getEntriesByParent "g1" (createEntry "e1" "g1" "Coffee" 5 "" 1 1 emptyDB).2).length
      = 1 := by
  decide

/-- **C9** (amended): when `parentId` references no existing Group, the
total recompute does fail with `NotFound`, but that rejection is swallowed
inside the `onsuccess` callback, so `createEntry`'s promise never settles —
it neither resolves nor rejects.  The new Entry has nevertheless already
been persisted, and a subsequent `listEntriesByGroup(parentId)` returns it:
the operation is not atomic on error. -/
theorem createEntry_nonatomic (eid pid description : String) (amount : Int)
    (category : String) (date now : Nat) (db : DB)
    (hparent : db.parents.find? (fun p => p.id = pid) = none)
    (hfresh : ∀ x ∈ db.entries, ¬ x.id = eid) :
    (updateParentTotal pid
        { db with entries :=
            (db.entries ++ [⟨eid, pid, description, amount, category, date, now⟩]) }).1
      = Except.error Err.notFound ∧
    (createEntry eid pid description amount category date now db).1
        = Outcome.unsettled ∧
    ∃ e ∈ getEntriesByParent pid
        (createEntry eid pid description amount category date now db).2,
      e.id = eid ∧ e.parentId = pid ∧ e.amount = amount := by
  have hany : db.entries.any (fun x => x.id = eid) = false := by
    rw [List.any_eq_false]
    intro x hx
    simpa using hfresh x hx
  have hupd : (updateParentTotal pid
      { db with entries :=
          (db.entries ++ [⟨eid, pid, description, amount, category, date, now⟩]) }).1
      = Except.error Err.notFound := by
    simp [updateParentTotal, hparent]
  have hrun : createEntry eid pid description amount category date now db =
      (Outcome.unsettled,
        { db with entries := db.entries ++ [⟨eid, pid, description, amount, category, date, now⟩] }) := by
    simp [createEntry, hany, updateParentTotal, hparent, settleAfterRecompute]
  refine ⟨hupd, by rw [hrun],
    ⟨eid, pid, description, amount, category, date, now⟩, ?_, rfl, rfl, rfl⟩
  rw [hrun]
  exact (mem_getEntriesByParent _ _).mpr ⟨by simp, rfl⟩

theorem createEntry_nonatomic_witness :
    (emptyDB.parents.find? (fun p => p.id = "g1") = none) ∧
    ((updateParentTotal "g1"
        { emptyDB with entries :=
            (emptyDB.entries ++ [⟨"e1", "g1", "Coffee", 5, "", 1, 1⟩]) }).1
        = Except.error Err.notFound ∧
      (createEntry "e1" "g1" "Coffee" 5 "" 1 1 emptyDB).1 = Outcome.unsettled ∧
      ∃ e ∈ getEntriesByParent "g1" (createEntry "e1" "g1" "Coffee" 5 "" 1 1 emptyDB).2,
        e.id = "e1" ∧ e.parentId = "g1" ∧ e.amount = 5) :=
  ⟨by decide,
    createEntry_nonatomic "e1" "g1" "Coffee" 5 "" 1 1 emptyDB (by decide) (by decide)⟩

/-! ### Lemmas about `updateParentTotal` and `putParent` -/

lemma putParent_eq_map (p' : Parent) (ps : List Parent)
    (hmem : ∃ q ∈ ps, q.id = p'.id) :
    putParent p' ps = ps.map (fun q => if q.id = p'.id then p' else q) := by
  rw [putParent, if_pos]
  rw [List.any_eq_true]
  obtain ⟨q, hq, hid⟩ := hmem
  exact ⟨q, hq, by simpa using hid⟩

lemma find?_map_replace (pid : String) (p' : Parent) (hp' : p'.id = pid)
    (ps : List Parent) (hmem : ∃ q ∈ ps, q.id = pid) :
    (ps.map (fun q => if q.id = p'.id then p' else q)).find?
        (fun q => q.id = pid) = some p' := by
  induction ps with
  | nil => simp at hmem
  | cons q rest ih =>
      by_cases hq : q.id = p'.id
      · simp [List.find?_cons, hq, hp']
      · have hqpid : ¬ q.id = pid := fun hc => hq (hc.trans hp'.symm)
        simp only [List.map_cons, if_neg hq]
        rw [List.find?_cons_of_neg _ (by simpa using hqpid)]
        apply ih
        obtain ⟨r, hr, hrid⟩ := hmem
        rcases List.mem_cons.mp hr with rfl | hr'
        · exact absurd hrid hqpid
        · exact ⟨r, hr', hrid⟩

lemma updateParentTotal_found (pid : String) (db : DB) (p : Parent)
    (hfind : db.parents.find? (fun q => q.id = pid) = some p) :
    updateParentTotal pid db =
      (Except.ok { p with totalExpenses := sumAmounts (getEntriesByParent pid db) },
       { db with parents :=
          (putParent { p with totalExpenses := sumAmounts (getEntriesByParent pid db) }
            db.parents) }) := by
  simp [updateParentTotal, hfind]

/-! ### C6 — `duplicateEntry` -/

/-- **C6**: duplicating an existing Entry stores a copy with identical
`description`/`amount`/`category`/`date`/`parentId`, a distinct fresh `id`
and the supplied fresh `createdAt`, and raises the owning Group's stored
total by exactly the duplicated amount; duplicating an absent id fails with
`NotFound` and leaves the store unchanged. -/
theorem duplicateEntry_spec (id freshId : String) (now : Nat) (db : DB)
    (hfresh : ∀ x ∈ db.entries, ¬ x.id = freshId) :
    (getEntry id db = none →
      duplicateEntry id freshId now db = (Outcome.error Err.notFound, db)) ∧
    (∀ original : Entry, getEntry id db = some original →
      ∀ p : Parent, getParent original.parentId db = some p →
      p.totalExpenses =
          sumAmounts (db.entries.filter (fun e => e.parentId = original.parentId)) →
      ∃ dup : Entry,
        (duplicateEntry id freshId now db).1 = Outcome.ok dup ∧
        dup.description = original.description ∧
        dup.amount = original.amount ∧
        dup.category = original.category ∧
        dup.date = original.date ∧
        dup.parentId = original.parentId ∧
        dup.id = freshId ∧ dup.createdAt = now ∧
        (∀ x ∈ db.entries, ¬ x.id = dup.id) ∧
        dup ∈ (duplicateEntry id freshId now db).2.entries ∧
        ∃ p' : Parent,
          getParent original.parentId (duplicateEntry id freshId now db).2 = some p' ∧
          p'.totalExpenses = p.totalExpenses + original.amount) := by
  constructor
  · intro h
    simp [duplicateEntry, h]
  · intro original hfind p hp htot
    rw [getParent] at hp
    have hany : db.entries.any (fun x => x.id = freshId) = false := by
      rw [List.any_eq_false]
      intro x hx
      simpa using hfresh x hx
    have hpid : p.id = original.parentId := by
      have h1 := List.find?_some hp
      simpa using h1
    have hmemp : p ∈ db.parents := List.mem_of_find?_eq_some hp
    have hfind1 :
        ({ db with entries :=
            (db.entries ++ [{ original with id := freshId, createdAt := now }]) } : DB).parents.find?
          (fun q => q.id = original.parentId) = some p := hp
    have hput := updateParentTotal_found original.parentId
      { db with entries :=
          (db.entries ++ [{ original with id := freshId, createdAt := now }]) } p hfind1
    have hnewtot :
        sumAmounts (getEntriesByParent original.parentId
            { db with entries :=
                (db.entries ++ [{ original with id := freshId, createdAt := now }]) })
          = p.totalExpenses + original.amount := by
      rw [sum_getEntriesByParent]
      show sumAmounts ((db.entries ++ [{ original with id := freshId, createdAt := now }]).filter
        (fun e => e.parentId = original.parentId)) = _
      rw [List.filter_append, sumAmounts_append, ← htot]
      simp [sumAmounts]
    rw [hnewtot] at hput
    have hrun : duplicateEntry id freshId now db =
        (Outcome.ok { original with id := freshId, createdAt := now },
          { db with
              entries := (db.entries ++ [{ original with id := freshId, createdAt := now }])
              parents := (putParent
                { p with totalExpenses := p.totalExpenses + original.amount }
                db.parents) }) := by
      simp [duplicateEntry, hfind, hany, hput, settleAfterRecompute]
    refine ⟨{ original with id := freshId, createdAt := now },
      by rw [hrun], rfl, rfl, rfl, rfl, rfl, rfl, rfl,
      by simpa using hfresh, by rw [hrun]; simp, ?_⟩
    refine ⟨{ p with totalExpenses := p.totalExpenses + original.amount }, ?_, rfl⟩
    rw [hrun, getParent]
    show (putParent { p with totalExpenses := p.totalExpenses + original.amount }
        db.parents).find? (fun q => q.id = original.parentId) = _
    rw [putParent_eq_map { p with totalExpenses := p.totalExpenses + original.amount }
      db.parents ⟨p, hmemp, rfl⟩]
    exact find?_map_replace original.parentId
      { p with totalExpenses := p.totalExpenses + original.amount }
      hpid db.parents ⟨p, hmemp, hpid⟩

theorem duplicateEntry_spec_witness :
    (∀ x ∈ sampleDB.entries, ¬ x.id = "e2") ∧
    ((getEntry "e1" sampleDB = none →
      duplicateEntry "e1" "e2" 9 sampleDB = (Outcome.error Err.notFound, sampleDB)) ∧
    (∀ original : Entry, getEntry "e1" sampleDB = some original →
      ∀ p : Parent, getParent original.parentId sampleDB = some p →
      p.totalExpenses =
          sumAmounts (sampleDB.entries.filter (fun e => e.parentId = original.parentId)) →
      ∃ dup : Entry,
        (duplicateEntry "e1" "e2" 9 sampleDB).1 = Outcome.ok dup ∧
        dup.description = original.description ∧
        dup.amount = original.amount ∧
        dup.category = original.category ∧
        dup.date = original.date ∧
        dup.parentId = original.parentId ∧
        dup.id = "e2" ∧ dup.createdAt = 9 ∧
        (∀ x ∈ sampleDB.entries, ¬ x.id = dup.id) ∧
        dup ∈ (duplicateEntry "e1" "e2" 9 sampleDB).2.entries ∧
        ∃ p' : Parent,
          getParent original.parentId (duplicateEntry "e1" "e2" 9 sampleDB).2 = some p' ∧
          p'.totalExpenses = p.totalExpenses + original.amount)) :=
  ⟨by decide, duplicateEntry_spec "e1" "e2" 9 sampleDB (by decide)⟩

/-! ### C2 — importing an empty snapshot -/

/-- **C2** (counterexample): `importSnapshot({})` does fail with
`InvalidFormat`, but it does *not* leave the previously stored data
untouched — the Groups (and Entries) are cleared before the failure. -/
theorem importData_cex :
    (importData {} sampleDB).1 = Except.error Err.invalidFormat ∧
    ¬ (importData {} sampleDB).2 = sampleDB :=
  ⟨rfl, by decide⟩

/-- **C2** (amended): importing a snapshot that lacks both a groups list and
an entries list fails with `InvalidFormat`, but the previously stored Groups
and Entries have already been cleared when the failure surfaces; only the
Categories store keeps its prior records (merged additively with any
categories the snapshot carries). -/
theorem importData_missing_both (s : Snapshot) (db : DB)
    (hp : s.parents = none) (he : s.entries = none) :
    importData s db = (Except.error Err.invalidFormat,
      { parents := [], entries := [],
        categories := (match s.categories with
          | some cs => cs.foldl importCategory db.categories
          | none => db.categories) }) := by
  cases hcs : s.categories <;> simp [importData, clearAllData, hp, hcs]

theorem importData_missing_both_witness :
    (({} : Snapshot).parents = none) ∧
    importData {} sampleDB = (Except.error Err.invalidFormat,
      { parents := [], entries := [],
        categories := (match ({} : Snapshot).categories with
          | some cs => cs.foldl importCategory sampleDB.categories
          | none => sampleDB.categories) }) :=
  ⟨rfl, importData_missing_both {} sampleDB rfl rfl⟩

/-! ### C1 — the denormalized-totals invariant -/

lemma filter_map_invariant (f : Entry → Entry) (p : Entry → Bool) (es : List Entry)
    (h : ∀ x ∈ es, (p x = false ∧ p (f x) = false) ∨ f x = x) :
    (es.map f).filter p = es.filter p := by
  induction es with
  | nil => rfl
  | cons e rest ih =>
      have hrest := fun x hx => h x (List.mem_cons_of_mem _ hx)
      rcases h e (List.mem_cons_self _ _) with ⟨h1, h2⟩ | heq
      · rw [List.map_cons,
          List.filter_cons_of_neg (by simp [h2]),
          List.filter_cons_of_neg (by simp [h1]),
          ih hrest]
      · rw [List.map_cons, heq, List.filter_cons, List.filter_cons, ih hrest]

lemma filter_filter_invariant (p r : Entry → Bool) (es : List Entry)
    (h : ∀ x ∈ es, r x = false → p x = false) :
    (es.filter r).filter p = es.filter p := by
  induction es with
  | nil => rfl
  | cons e rest ih =>
      have hrest := fun x hx => h x (List.mem_cons_of_mem _ hx)
      cases hr : r e with
      | false =>
          rw [List.filter_cons_of_neg (by simp [hr]),
            List.filter_cons_of_neg (by simp [h e (List.mem_cons_self _ _) hr]),
            ih hrest]
      | true =>
          rw [List.filter_cons_of_pos hr]
          cases hp : p e with
          | true =>
              rw [List.filter_cons_of_pos hp, List.filter_cons_of_pos hp, ih hrest]
          | false =>
              rw [List.filter_cons_of_neg (by simp [hp]),
                List.filter_cons_of_neg (by simp [hp]), ih hrest]

lemma putEntry_map_id (e' : Entry) (es : List Entry)
    (hmem : es.any (fun x => x.id = e'.id) = true) :
    (putEntry e' es).map Entry.id = es.map Entry.id := by
  rw [putEntry, if_pos hmem, List.map_map]
  apply List.map_congr_left
  intro x hx
  by_cases hx2 : x.id = e'.id <;> simp [hx2, Function.comp]

lemma putParent_map_id (p' : Parent) (ps : List Parent)
    (hmem : ∃ q ∈ ps, q.id = p'.id) :
    (putParent p' ps).map Parent.id = ps.map Parent.id := by
  rw [putParent_eq_map p' ps hmem, List.map_map]
  apply List.map_congr_left
  intro x hx
  by_cases hx2 : x.id = p'.id <;> simp [hx2, Function.comp]

lemma updateParentTotal_entries (pid : String) (db : DB) :
    (updateParentTotal pid db).2.entries = db.entries := by
  cases h : db.parents.find? (fun p => p.id = pid) with
  | none => simp [updateParentTotal, h]
  | some p => simp [updateParentTotal, h]

lemma updateParentTotal_wf (pid : String) (db : DB) (hwf : WF db) :
    WF (updateParentTotal pid db).2 := by
  cases h : db.parents.find? (fun p => p.id = pid) with
  | none =>
      have hstate : (updateParentTotal pid db).2 = db := by
        simp [updateParentTotal, h]
      rw [hstate]
      exact hwf
  | some p =>
      obtain ⟨hp, he⟩ := hwf
      have hput := updateParentTotal_found pid db p h
      rw [hput]
      refine ⟨?_, he⟩
      show ((putParent _ db.parents).map Parent.id).Nodup
      rw [putParent_map_id
        { p with totalExpenses := sumAmounts (getEntriesByParent pid db) }
        db.parents ⟨p, List.mem_of_find?_eq_some h, rfl⟩]
      exact hp

lemma updateParentTotal_parents_found (pid : String) (db : DB) (p : Parent)
    (hf : db.parents.find? (fun q => q.id = pid) = some p) :
    (updateParentTotal pid db).2.parents =
      putParent { p with totalExpenses := sumAmounts (getEntriesByParent pid db) }
        db.parents := by
  simp [updateParentTotal, hf]

lemma updateParentTotal_good (pid : String) (db : DB)
    (h : ∀ q ∈ db.parents, ¬ q.id = pid →
        q.totalExpenses = sumAmounts (db.entries.filter (fun e => e.parentId = q.id))) :
    goodTotals (updateParentTotal pid db).2 := by
  cases hf : db.parents.find? (fun p => p.id = pid) with
  | none =>
      have hstate : (updateParentTotal pid db).2 = db := by
        simp [updateParentTotal, hf]
      rw [hstate]
      intro q hq
      refine h q hq fun hc => ?_
      have := List.find?_eq_none.mp hf q hq
      simp [hc] at this
  | some p =>
      have hpid : p.id = pid := by
        have := List.find?_some hf
        simpa using this
      have hmemp : p ∈ db.parents := List.mem_of_find?_eq_some hf
      intro q hq
      rw [updateParentTotal_entries]
      rw [updateParentTotal_parents_found pid db p hf] at hq
      rw [putParent_eq_map
        { p with totalExpenses := sumAmounts (getEntriesByParent pid db) }
        db.parents ⟨p, hmemp, rfl⟩] at hq
      obtain ⟨x, hx, hxq⟩ := List.mem_map.mp hq
      by_cases hxid :
          x.id = ({ p with totalExpenses := sumAmounts (getEntriesByParent pid db) } : Parent).id
      · rw [if_pos hxid] at hxq
        subst hxq
        show sumAmounts (getEntriesByParent pid db) = _
        rw [sum_getEntriesByParent]
        have hqid :
            ({ p with totalExpenses := sumAmounts (getEntriesByParent pid db) } : Parent).id
              = pid := hpid
        rw [hqid]
      · rw [if_neg hxid] at hxq
        subst hxq
        exact h x hx fun hc => hxid (hc.trans hpid.symm)

lemma runEntryOp_preserves (op : EntryOp) (db : DB)
    (hwf : WF db) (hg : goodTotals db) (hk : keepsParent op = true) :
    WF (runEntryOp op db).2 ∧ goodTotals (runEntryOp op db).2 := by
  cases op with
  | create eid pid description amount category date now =>
      cases hany : db.entries.any (fun x => x.id = eid) with
      | true =>
          have hstate :
              (runEntryOp (.create eid pid description amount category date now) db).2 = db := by
            simp [runEntryOp, createEntry, hany]
          rw [hstate]
          exact ⟨hwf, hg⟩
      | false =>
          have hfresh : ∀ x ∈ db.entries, ¬ x.id = eid := by
            rw [List.any_eq_false] at hany
            intro x hx
            simpa using hany x hx
          have hstate :
              (runEntryOp (.create eid pid description amount category date now) db).2 =
              (updateParentTotal pid
                { db with entries :=
                    (db.entries ++ [⟨eid, pid, description, amount, category, date, now⟩]) }).2 := by
            simp [runEntryOp, createEntry, hany]
          rw [hstate]
          have hnodup : ((db.entries ++
              ([⟨eid, pid, description, amount, category, date, now⟩] : List Entry)).map
              Entry.id).Nodup := by
            rw [List.map_append, List.nodup_append]
            refine ⟨hwf.2, List.nodup_singleton _, ?_⟩
            intro a ha hb
            obtain ⟨x, hx, rfl⟩ := List.mem_map.mp ha
            simp only [List.map_cons, List.map_nil, List.mem_singleton] at hb
            exact hfresh x hx hb
          refine ⟨updateParentTotal_wf _ _ ⟨hwf.1, hnodup⟩, updateParentTotal_good _ _ ?_⟩
          · intro q hq hqpid
            show q.totalExpenses =
              sumAmounts ((db.entries ++
                ([⟨eid, pid, description, amount, category, date, now⟩] : List Entry)).filter
                (fun e => e.parentId = q.id))
            rw [List.filter_append, sumAmounts_append]
            have hne : ¬ ((⟨eid, pid, description, amount, category, date, now⟩ : Entry).parentId
                = q.id) := fun hc => hqpid hc.symm
            rw [List.filter_cons_of_neg (by simpa using hne), List.filter_nil]
            show q.totalExpenses = sumAmounts (db.entries.filter (fun e => e.parentId = q.id)) + 0
            rw [add_zero]
            exact hg q hq
  | update eid u =>
      have hu : u.parentId = none := Option.eq_none_of_isNone hk
      cases hf : db.entries.find? (fun e => e.id = eid) with
      | none =>
          have hstate : (runEntryOp (.update eid u) db).2 = db := by
            simp [runEntryOp, updateEntry, hf]
          rw [hstate]
          exact ⟨hwf, hg⟩
      | some e =>
          have hmem_e : e ∈ db.entries := List.mem_of_find?_eq_some hf
          have heid : e.id = eid := by
            have := List.find?_some hf
            simpa using this
          have heid' : (applyUpdates u e).id = e.id := rfl
          have hepid : (applyUpdates u e).parentId = e.parentId := by
            simp [applyUpdates, hu]
          have hany : db.entries.any (fun x => x.id = (applyUpdates u e).id) = true := by
            rw [List.any_eq_true]
            exact ⟨e, hmem_e, by simp [heid']⟩
          have hstate : (runEntryOp (.update eid u) db).2 =
              (updateParentTotal (applyUpdates u e).parentId
                { db with entries := putEntry (applyUpdates u e) db.entries }).2 := by
            simp [runEntryOp, updateEntry, hf]
          rw [hstate]
          have hnodup : ((putEntry (applyUpdates u e) db.entries).map Entry.id).Nodup := by
            rw [putEntry_map_id _ _ hany]
            exact hwf.2
          refine ⟨updateParentTotal_wf _ _ ⟨hwf.1, hnodup⟩, updateParentTotal_good _ _ ?_⟩
          · intro q hq hqpid
            have hqe : ¬ e.parentId = q.id := fun hc =>
              hqpid (hc.symm.trans hepid.symm)
            show q.totalExpenses =
              sumAmounts ((putEntry (applyUpdates u e) db.entries).filter
                (fun x => x.parentId = q.id))
            rw [putEntry, if_pos hany]
            have heq : ((db.entries.map
                  (fun x => if x.id = (applyUpdates u e).id then applyUpdates u e else x)).filter
                    (fun x => x.parentId = q.id))
                = db.entries.filter (fun x => x.parentId = q.id) := by
              apply filter_map_invariant
              intro x hx
              by_cases hxid : x.id = (applyUpdates u e).id
              · left
                have hxe : x = e :=
                  List.inj_on_of_nodup_map hwf.2 hx hmem_e (hxid.trans heid')
                subst hxe
                refine ⟨by simpa using hqe, ?_⟩
                rw [if_pos hxid]
                have : ¬ (applyUpdates u x).parentId = q.id := fun hc =>
                  hqe (hepid ▸ hc)
                simpa using this
              · right
                rw [if_neg hxid]
            rw [heq]
            exact hg q hq
  | delete eid =>
      cases hf : db.entries.find? (fun e => e.id = eid) with
      | none =>
          have hstate : (runEntryOp (.delete eid) db).2 = db := by
            simp [runEntryOp, deleteEntry, hf]
          rw [hstate]
          exact ⟨hwf, hg⟩
      | some e =>
          have hmem_e : e ∈ db.entries := List.mem_of_find?_eq_some hf
          have heid : e.id = eid := by
            have := List.find?_some hf
            simpa using this
          have hstate : (runEntryOp (.delete eid) db).2 =
              (updateParentTotal e.parentId
                { db with entries := db.entries.filter (fun x => ¬ x.id = eid) }).2 := by
            simp [runEntryOp, deleteEntry, hf]
          rw [hstate]
          have hnodup : ((db.entries.filter (fun x => ¬ x.id = eid)).map Entry.id).Nodup :=
            hwf.2.sublist ((List.filter_sublist _).map _)
          refine ⟨updateParentTotal_wf _ _ ⟨hwf.1, hnodup⟩, updateParentTotal_good _ _ ?_⟩
          · intro q hq hqpid
            show q.totalExpenses =
              sumAmounts (((db.entries.filter (fun x => ¬ x.id = eid))).filter
                (fun x => x.parentId = q.id))
            have heq : (db.entries.filter (fun x => ¬ x.id = eid)).filter
                  (fun x => x.parentId = q.id)
                = db.entries.filter (fun x => x.parentId = q.id) := by
              apply filter_filter_invariant
              intro x hx hr
              have hxeid : x.id = eid := by simpa using hr
              have hxe : x = e :=
                List.inj_on_of_nodup_map hwf.2 hx hmem_e (hxeid.trans heid.symm)
              subst hxe
              have : ¬ x.parentId = q.id := fun hc => hqpid hc.symm
              simpa using this
            rw [heq]
            exact hg q hq

/-- **C1** (amended): for every sequence of `createEntry`/`updateEntry`/
`deleteEntry` operations in which no `updateEntry` supplies a new `parentId`,
the store keeps the invariant that every Group's `totalExpenses` equals the
exact sum of `amount` over the Entries holding its id (for every prefix of
the sequence, hence after each operation).  When an `updateEntry` *does*
move an Entry between Groups, only the destination Group's total is
recomputed and the source Group's total goes stale (see the
counterexample). -/
theorem goodTotals_invariant (ops : List EntryOp) :
    ∀ db : DB, WF db → goodTotals db →
      (∀ op ∈ ops, keepsParent op = true) →
      WF (runEntryOps ops db) ∧ goodTotals (runEntryOps ops db) := by
  induction ops with
  | nil =>
      intro db hwf hg _
      exact ⟨hwf, hg⟩
  | cons op rest ih =>
      intro db hwf hg hk
      have h1 := runEntryOp_preserves op db hwf hg (hk op (List.mem_cons_self _ _))
      have h2 := ih (runEntryOp op db).2 h1.1 h1.2
        (fun o ho => hk o (List.mem_cons_of_mem _ ho))
      simpa [runEntryOps, List.foldl_cons] using h2

theorem goodTotals_invariant_witness :
    WF sampleDB ∧ goodTotals sampleDB ∧
    (∀ op ∈ sampleOps, keepsParent op = true) ∧
    (WF (runEntryOps sampleOps sampleDB) ∧ goodTotals (runEntryOps sampleOps sampleDB)) :=
  ⟨by decide, by decide, by decide,
    goodTotals_invariant sampleOps sampleDB (by decide) (by decide) (by decide)⟩

/-- **C1** (counterexample): starting from two freshly created Groups,
`createEntry` into the first and then an `updateEntry` that moves the Entry
to the second both resolve successfully, yet afterwards the first Group's
stored `totalExpenses` is stale (5, while it owns no Entries), so the
claimed invariant fails for sequences containing a parent-moving update. -/
theorem goodTotals_cex :
    (runEntryOp (EntryOp.create "e1" "2024-01" "Coffee" 5 "" 2 2)
        ((createParent "February" "2024-02" 1
          ((createParent "January" "2024-01" 0 emptyDB).2)).2)).1 = Outcome.ok () ∧
    (runEntryOp (EntryOp.update "e1" { parentId := some "2024-02" })
        (runEntryOp (EntryOp.create "e1" "2024-01" "Coffee" 5 "" 2 2)
          ((createParent "February" "2024-02" 1
            ((createParent "January" "2024-01" 0 emptyDB).2)).2)).2).1 = Outcome.ok () ∧
    ¬ goodTotals
        (runEntryOp (EntryOp.update "e1" { parentId := some "2024-02" })
          (runEntryOp (EntryOp.create "e1" "2024-01" "Coffee" 5 "" 2 2)
            ((createParent "February" "2024-02" 1
              ((createParent "January" "2024-01" 0 emptyDB).2)).2)).2).2 :=
  ⟨rfl, rfl, by decide⟩

/-! ### C3 — export/import round trip -/

lemma addParents_ok (l : List Parent) :
    ∀ acc : List Parent, ((acc ++ l).map Parent.id).Nodup →
      addParents acc l = (Except.ok (), acc ++ l) := by
  induction l with
  | nil =>
      intro acc h
      simp [addParents]
  | cons p rest ih =>
      intro acc h
      have hnp : ¬ acc.any (fun q => q.id = p.id) = true := by
        rw [List.any_eq_true]
        rintro ⟨q, hq, hqid⟩
        rw [List.map_append, List.nodup_append] at h
        refine h.2.2 (List.mem_map_of_mem _ hq) ?_
        have : q.id = p.id := of_decide_eq_true hqid
        simp [this]
      rw [addParents, if_neg hnp]
      have h' : (((acc ++ [p]) ++ rest).map Parent.id).Nodup := by
        rw [List.append_assoc]
        simpa using h
      rw [ih (acc ++ [p]) h', List.append_assoc]
      rfl

lemma addEntries_ok (l : List Entry) :
    ∀ acc : List Entry, ((acc ++ l).map Entry.id).Nodup →
      addEntries acc l = (Except.ok (), acc ++ l) := by
  induction l with
  | nil =>
      intro acc h
      simp [addEntries]
  | cons e rest ih =>
      intro acc h
      have hne : ¬ acc.any (fun x => x.id = e.id) = true := by
        rw [List.any_eq_true]
        rintro ⟨q, hq, hqid⟩
        rw [List.map_append, List.nodup_append] at h
        refine h.2.2 (List.mem_map_of_mem _ hq) ?_
        have : q.id = e.id := of_decide_eq_true hqid
        simp [this]
      rw [addEntries, if_neg hne]
      have h' : (((acc ++ [e]) ++ rest).map Entry.id).Nodup := by
        rw [List.append_assoc]
        simpa using h
      rw [ih (acc ++ [e]) h', List.append_assoc]
      rfl

lemma filter_or_perm (pa pb : Entry → Bool) (es : List Entry)
    (hdisj : ∀ e ∈ es, ¬ (pa e = true ∧ pb e = true)) :
    List.Perm (es.filter (fun e => pa e || pb e)) (es.filter pa ++ es.filter pb) := by
  induction es with
  | nil => simp
  | cons e rest ih =>
      have hrest := fun x hx => hdisj x (List.mem_cons_of_mem _ hx)
      cases hpa : pa e with
      | true =>
          have hpb : pb e = false := by
            cases hpb : pb e
            · rfl
            · exact absurd ⟨hpa, hpb⟩ (hdisj e (List.mem_cons_self _ _))
          rw [List.filter_cons_of_pos (by simp [hpa]),
            List.filter_cons_of_pos hpa,
            List.filter_cons_of_neg (by simp [hpb])]
          exact (ih hrest).cons e
      | false =>
          cases hpb : pb e with
          | true =>
              rw [List.filter_cons_of_pos (by simp [hpa, hpb]),
                List.filter_cons_of_neg (by simp [hpa]),
                List.filter_cons_of_pos hpb]
              exact ((ih hrest).cons e).trans List.perm_middle.symm
          | false =>
              rw [List.filter_cons_of_neg (by simp [hpa, hpb]),
                List.filter_cons_of_neg (by simp [hpa]),
                List.filter_cons_of_neg (by simp [hpb])]
              exact ih hrest

lemma flatMap_perm_congr (ps : List Parent) (f g : Parent → List Entry)
    (h : ∀ p ∈ ps, List.Perm (f p) (g p)) :
    List.Perm (ps.flatMap f) (ps.flatMap g) := by
  induction ps with
  | nil => simp
  | cons p rest ih =>
      rw [List.flatMap_cons, List.flatMap_cons]
      exact (h p (List.mem_cons_self _ _)).append
        (ih (fun q hq => h q (List.mem_cons_of_mem _ hq)))

lemma flatMap_filter_perm (ps : List Parent) (es : List Entry)
    (hnd : (ps.map Parent.id).Nodup) :
    List.Perm (ps.flatMap (fun p => es.filter (fun e => e.parentId = p.id)))
      (es.filter (fun e => ps.any (fun q => e.parentId = q.id))) := by
  induction ps with
  | nil => simp
  | cons p rest ih =>
      rw [List.map_cons, List.nodup_cons] at hnd
      have hpid : p.id ∉ rest.map Parent.id := hnd.1
      have hdisj : ∀ e ∈ es,
          ¬ ((fun e => decide (e.parentId = p.id)) e = true ∧
             (fun e => rest.any (fun q => e.parentId = q.id)) e = true) := by
        rintro e he ⟨h1, h2⟩
        have h1' : e.parentId = p.id := of_decide_eq_true h1
        rw [List.any_eq_true] at h2
        obtain ⟨q, hq, hq2⟩ := h2
        have hq2' : e.parentId = q.id := of_decide_eq_true hq2
        exact hpid (by rw [← h1', hq2']; exact List.mem_map_of_mem _ hq)
      have hperm := filter_or_perm (fun e => e.parentId = p.id)
        (fun e => rest.any (fun q => e.parentId = q.id)) es hdisj
      rw [List.flatMap_cons]
      have hfc : es.filter (fun e => (p :: rest).any (fun q => e.parentId = q.id)) =
          es.filter (fun e =>
            decide (e.parentId = p.id) || rest.any (fun q => e.parentId = q.id)) := by
        apply List.filter_congr
        intro x hx
        rw [List.any_cons]
      rw [hfc]
      exact (((List.Perm.refl _).append (ih hnd.2)).trans hperm.symm)

lemma export_entries_nodup (db : DB) (hwf : WF db) :
    (((getAllParents db).flatMap (fun p => getEntriesByParent p.id db)).map Entry.id).Nodup := by
  have hP : ((getAllParents db).map Parent.id).Nodup :=
    ((List.perm_insertionSort _ db.parents).map Parent.id).nodup_iff.mpr hwf.1
  have h1 : List.Perm ((getAllParents db).flatMap (fun p => getEntriesByParent p.id db))
      ((getAllParents db).flatMap (fun p => db.entries.filter (fun e => e.parentId = p.id))) :=
    flatMap_perm_congr _ _ _
      (fun p _ => List.perm_insertionSort _ _)
  have h2 := flatMap_filter_perm (getAllParents db) db.entries hP
  have h3 := h1.trans h2
  have h4 : ((db.entries.filter (fun e =>
      (getAllParents db).any (fun q => e.parentId = q.id))).map Entry.id).Nodup :=
    hwf.2.sublist ((List.filter_sublist _).map _)
  exact ((h3.map Entry.id).nodup_iff).mpr h4

/-- **C3**: exporting a well-formed store and importing the snapshot into an
otherwise-empty store succeeds and reproduces exactly the exported Groups
and Entries (same ids, same field values, same stored `totalExpenses`). -/
theorem export_import_roundtrip (d : String) (db : DB) (hwf : WF db) :
    (importData (exportData d db) emptyDB).1 = Except.ok () ∧
    (importData (exportData d db) emptyDB).2.parents = (exportData d db).parents.getD [] ∧
    (importData (exportData d db) emptyDB).2.entries = (exportData d db).entries.getD [] := by
  have hP : ((getAllParents db).map Parent.id).Nodup :=
    ((List.perm_insertionSort _ db.parents).map Parent.id).nodup_iff.mpr hwf.1
  have hE := export_entries_nodup db hwf
  have hap : addParents [] (getAllParents db) = (Except.ok (), getAllParents db) := by
    simpa using addParents_ok (getAllParents db) [] (by simpa using hP)
  have hae : addEntries [] ((getAllParents db).flatMap (fun p => getEntriesByParent p.id db))
      = (Except.ok (), (getAllParents db).flatMap (fun p => getEntriesByParent p.id db)) := by
    simpa using addEntries_ok
      ((getAllParents db).flatMap (fun p => getEntriesByParent p.id db)) [] (by simpa using hE)
  refine ⟨?_, ?_, ?_⟩ <;>
    simp [importData, exportData, clearAllData, emptyDB, hap, hae]

theorem export_import_roundtrip_witness :
    WF sampleDB ∧
    ((importData (exportData "2024" sampleDB) emptyDB).1 = Except.ok () ∧
     (importData (exportData "2024" sampleDB) emptyDB).2.parents
        = (exportData "2024" sampleDB).parents.getD [] ∧
     (importData (exportData "2024" sampleDB) emptyDB).2.entries
        = (exportData "2024" sampleDB).entries.getD []) :=
  ⟨by decide, export_import_roundtrip "2024" sampleDB (by decide)⟩

end ExpenseDB
